import Mathlib

/-!
Verification of the chess rules core of the daily-chess repository.

The repository's substantive logic lives in small Python scripts:
`validate_en_passant.py` (correcting the en-passant field of a FEN string),
`test/analyze_position.py` (`analyze_pawn_moves`, a forward-pawn-move
generator) and `test/test_bishop_moves.py` (`can_bishop_move_to`, a bishop
legality check).  This file embeds those functions shallowly: Python strings
become `List Char`, and a Python statement that can raise (out-of-range
indexing, `int()` on a non-digit) makes the embedded function return `none`
for that input.  Digit handling (`str.isdigit` / `int` on one character) is
modelled over the ASCII digits, the only digits these scripts encounter.
-/

namespace DailyChess

/-- Python `str.split()` (no separator): split on runs of whitespace,
dropping empty pieces.  `acc` holds the current word, reversed. -/
def splitWsAux (acc : List Char) : List Char → List (List Char)
  | [] => if acc.isEmpty then [] else [acc.reverse]
  | c :: cs =>
    if c.isWhitespace then
      if acc.isEmpty then splitWsAux [] cs
      else acc.reverse :: splitWsAux [] cs
    else splitWsAux (c :: acc) cs

/-- Python `str.split()` with no arguments. -/
def splitWs (s : List Char) : List (List Char) := splitWsAux [] s

/-- Python `str.split('/')`: keeps empty pieces. -/
def splitOnSlashAux (acc : List Char) : List Char → List (List Char)
  | [] => [acc.reverse]
  | c :: cs =>
    if c = '/' then acc.reverse :: splitOnSlashAux [] cs
    else splitOnSlashAux (c :: acc) cs

/-- Python `board_part.split('/')`. -/
def splitOnSlash (s : List Char) : List (List Char) := splitOnSlashAux [] s

/-- Python `" ".join`-style reconstruction used by the f-string
`f"{board_part} {active_color} {castling} {en_passant} {halfmove} {fullmove}"`. -/
def joinSp : List (List Char) → List Char
  | [] => []
  | [w] => w
  | w :: ws => w ++ ' ' :: joinSp ws

/-- Python `int(ch)` on a single character, over the ASCII digits
(mirroring `ch.isdigit()` guards in the scripts); `none` models the
`ValueError` raised on any other character. -/
def charToDigit? (c : Char) : Option Nat :=
  if c.isDigit then some (c.toNat - ('0').toNat) else none

/-- One rank of the FEN placement, expanded: a digit contributes that many
`'.'` cells, any other character contributes itself
(`row.extend(['.'] * int(char))` / `row.append(char)`). -/
def expandRank (r : List Char) : List Char :=
  (r.map (fun c =>
    match charToDigit? c with
    | some n => List.replicate n '.'
    | none => [c])).flatten

/-- The board built by `validate_en_passant`: the placement field split on
`'/'`, each rank expanded. -/
def parseBoard (placement : List Char) : List (List Char) :=
  (splitOnSlash placement).map expandRank

/-- Python `board[r][c]`: `none` models the `IndexError` raised when the
row or the column is missing (the scripts only ever use non-negative
indices at these call sites). -/
def pyCell (board : List (List Char)) (r c : Nat) : Option Char :=
  (board.get? r).bind (fun row => row.get? c)

/-- `ord(c) - ord('a')`, the file index of a square letter (negative for
characters before `'a'`). -/
def fileIdxOf (c : Char) : Int :=
  (c.toNat : Int) - ('a'.toNat : Int)

/-- The adjacent-file scan of `validate_en_passant`: both `if` statements
run in order, so either out-of-range row access faults
(`board[row][file_idx-1]`, `board[row][file_idx+1]`). -/
def adjCheck (board : List (List Char)) (row fi : Nat) (target : Char) :
    Option Bool :=
  match (if 0 < fi then (pyCell board row (fi - 1)).map (fun c => c == target)
         else some false) with
  | none => none
  | some l =>
    match (if fi < 7 then (pyCell board row (fi + 1)).map (fun c => c == target)
           else some false) with
    | none => none
    | some r => some (l || r)

/-- The validity computation of `validate_en_passant` for a non-`"-"`
en-passant field: parse the square (`ord(ep[0]) - ord('a')`,
`int(ep[1])`), decide which side just moved (`'black' if active == 'w'
else 'white'`), and check the pawn placement on the capture rank. -/
def epCheck (board : List (List Char)) (active ep : List Char) :
    Option Bool :=
  match ep.get? 0 with
  | none => none
  | some c0 =>
  match ep.get? 1 with
  | none => none
  | some c1 =>
  match charToDigit? c1 with
  | none => none
  | some rank =>
  if active ≠ ['w'] ∧ rank = 3 then
    -- last mover is White: White pawn must sit on rank 4 of this file
    if 0 ≤ fileIdxOf c0 ∧ fileIdxOf c0 < 8 then
      match pyCell board 4 (fileIdxOf c0).toNat with
      | none => none
      | some center =>
        if center == 'P' then adjCheck board 4 (fileIdxOf c0).toNat 'p'
        else some false
    else some false
  else if active = ['w'] ∧ rank = 6 then
    -- last mover is Black: Black pawn must sit on rank 5 of this file
    if 0 ≤ fileIdxOf c0 ∧ fileIdxOf c0 < 8 then
      match pyCell board 3 (fileIdxOf c0).toNat with
      | none => none
      | some center =>
        if center == 'p' then adjCheck board 3 (fileIdxOf c0).toNat 'P'
        else some false
    else some false
  else some false

/-- The reconstruction and ep-correction tail of `validate_en_passant`,
after the six fields have been bound. -/
def validateSix (bp ac ca ep hm fm : List Char) : Option (List Char) :=
  let board := parseBoard bp
  if ep = ['-'] then some (joinSp [bp, ac, ca, ep, hm, fm])
  else
    (epCheck board ac ep).map
      (fun v => joinSp [bp, ac, ca, (if v then ep else ['-']), hm, fm])

/-- `validate_en_passant(fen)` from `validate_en_passant.py`: on anything
but exactly six whitespace-separated fields the input is returned
unchanged; otherwise the en-passant field is kept when the board justifies
it and replaced by `"-"` when it does not. -/
def validate_en_passant (fen : List Char) : Option (List Char) :=
  match splitWs fen with
  | [bp, ac, ca, ep, hm, fm] => validateSix bp ac ca ep hm fm
  | _ => some fen

/-! ### `analyze_pawn_moves` from `test/analyze_position.py` -/

/-- Python `board[r][c]` at the generator's call sites, which the scripts
only reach with indices inside an 8×8 board; out-of-range access is
modelled as an empty cell and the theorems below never depend on it. -/
def cellD (board : List (List Char)) (r c : Nat) : Char :=
  (board.getD r []).getD c '.'

/-- `pawn = 'P' if color == 'white' else 'p'`. -/
def pawnChar (color : List Char) : Char :=
  if color = ("white").toList then 'P' else 'p'

/-- `direction = -1 if color == 'white' else 1`. -/
def pawnDir (color : List Char) : Int :=
  if color = ("white").toList then -1 else 1

/-- `start_rank = 6 if color == 'white' else 1`. -/
def startRank (color : List Char) : Nat :=
  if color = ("white").toList then 6 else 1

/-- The move string `f"{file}{8 - rank_idx}"` for a destination at board
row `r`, file `f` (ASCII file letter followed by the rank digit). -/
def mkMove (f r : Nat) : List Char :=
  [Char.ofNat ('a'.toNat + f), Char.ofNat ('0'.toNat + (8 - r))]

/-- The body of the generator's double loop for the square at row `ri`,
file `fi`: a single advance onto an empty square, and, from the home rank
and inside that branch, a double advance onto an empty square. -/
def pawnMovesAt (board : List (List Char)) (color : List Char)
    (ri fi : Nat) : List (List Char) :=
  if cellD board ri fi = pawnChar color then
    -- `new_rank_idx = rank_idx + direction`, checked in bounds and empty
    if 0 ≤ (ri : Int) + pawnDir color ∧ (ri : Int) + pawnDir color < 8 ∧
        cellD board ((ri : Int) + pawnDir color).toNat fi = '.' then
      if ri = startRank color then
        -- `two_forward = rank_idx + 2 * direction`, checked empty
        if cellD board ((ri : Int) + 2 * pawnDir color).toNat fi = '.' then
          [mkMove fi ((ri : Int) + pawnDir color).toNat,
           mkMove fi ((ri : Int) + 2 * pawnDir color).toNat]
        else [mkMove fi ((ri : Int) + pawnDir color).toNat]
      else [mkMove fi ((ri : Int) + pawnDir color).toNat]
    else []
  else []

/-- `analyze_pawn_moves(board, color)`: scan the 8×8 grid in row-major
order and collect the forward pawn moves. -/
def analyze_pawn_moves (board : List (List Char)) (color : List Char) :
    List (List Char) :=
  (List.range 8).flatMap (fun ri =>
    (List.range 8).flatMap (fun fi => pawnMovesAt board color ri fi))

/-! ### `can_bishop_move_to` from `test/test_bishop_moves.py` -/

/-- Python `board[row][col]` with `Int` indices as used by the bishop
walk; the checker is only exercised on on-board squares of an 8×8 board,
where every access is in range, so out-of-range access is modelled as an
empty cell. -/
def cellI (board : List (List Char)) (row col : Int) : Char :=
  if 0 ≤ row ∧ 0 ≤ col then (board.getD row.toNat []).getD col.toNat '.'
  else '.'

/-- The square label `f"{files[current_file]}{8 - current_row}"` in the
path-blocked message (single rank digit, as on the 8×8 board). -/
def squareLabel (f row : Int) : List Char :=
  [Char.ofNat ('a'.toNat + f.toNat), Char.ofNat ('0'.toNat + (8 - row).toNat)]

/-- `file_step = 1 if to_file > from_file else -1`. -/
def stepF (ff tf : Nat) : Int := if tf > ff then 1 else -1

/-- `row_step = -rank_step`, the per-iteration change of the board row
(`rank_step = 1 if to_rank > from_rank else -1`). -/
def stepRow (fr tr : Nat) : Int := if tr > fr then -1 else 1

/-- The `while current_file != to_file` scan: starting at the square one
step out from the origin, return the first occupied square strictly
before the destination, `none` when the diagonal between them is clear.
`steps` is the number of strictly-between squares, `abs(to_file -
from_file) - 1`, which is exactly how many iterations the loop runs. -/
def findBlocked (board : List (List Char)) (cf crow fstep rowstep : Int) :
    Nat → Option (Int × Int)
  | 0 => none
  | n + 1 =>
    if cellI board crow cf ≠ '.' then some (cf, crow)
    else findBlocked board (cf + fstep) (crow + rowstep) fstep rowstep n

/-- `can_bishop_move_to` after its two squares have been parsed into
file/rank numbers (`files.index(sq[0])`, `int(sq[1])`): reject
non-diagonal requests, walk the diagonal, then apply the destination
occupancy rule. -/
def can_bishop_move_core (board : List (List Char)) (ff fr tf tr : Nat)
    (color : List Char) : Bool × List Char :=
  if ((tf : Int) - ff).natAbs ≠ ((tr : Int) - fr).natAbs ∨
      ((tf : Int) - ff).natAbs = 0 then
    (false, ("Not a diagonal move").toList)
  else
    match findBlocked board ((ff : Int) + stepF ff tf)
        ((8 - (fr : Int)) + stepRow fr tr) (stepF ff tf) (stepRow fr tr)
        (((tf : Int) - ff).natAbs - 1) with
    | some (bf, brow) =>
      (false, ("Path blocked at ").toList ++ squareLabel bf brow)
    | none =>
      if cellI board (8 - (tr : Int)) tf ≠ '.' then
        if color = ("white").toList ∧ (cellI board (8 - (tr : Int)) tf).isUpper then
          (false, ("Destination occupied by own piece").toList)
        else if color = ("black").toList ∧ (cellI board (8 - (tr : Int)) tf).isLower then
          (false, ("Destination occupied by own piece").toList)
        else (true, ("Legal move").toList)
      else (true, ("Legal move").toList)

/-- `files.index(c)` over `"abcdefgh"`; `none` models the `ValueError`
on any other character. -/
def filesIndex (c : Char) : Option Nat :=
  if 'a'.toNat ≤ c.toNat ∧ c.toNat ≤ 'h'.toNat then some (c.toNat - 'a'.toNat)
  else none

/-- Square parsing done at the top of `can_bishop_move_to`:
`files.index(square[0])` and `int(square[1])`. -/
def parseSq (s : List Char) : Option (Nat × Nat) := do
  let c0 ← s.get? 0
  let f ← filesIndex c0
  let c1 ← s.get? 1
  let r ← charToDigit? c1
  some (f, r)

/-- `can_bishop_move_to(board, from_square, to_square, color)`. -/
def can_bishop_move_to (board : List (List Char))
    (fromSq toSq color : List Char) : Option (Bool × List Char) := do
  let p1 ← parseSq fromSq
  let p2 ← parseSq toSq
  some (can_bishop_move_core board p1.1 p1.2 p2.1 p2.2 color)

/-! ### Board Model `decode` (spec §4.1) -/

/-- Decode-time structural failure of the six-field/eight-rank contract. -/
inductive DecodeError where
  | MalformedState
deriving DecidableEq

/-- Piece color. -/
inductive PieceColor where
  | white
  | black
deriving DecidableEq

/-- Piece kind. -/
inductive PieceKind where
  | pawn
  | knight
  | bishop
  | rook
  | queen
  | king
deriving DecidableEq

/-- A piece: color plus kind. -/
structure ChessPiece where
  color : PieceColor
  kind : PieceKind
deriving DecidableEq

/-- The recognized piece letters: uppercase for White, lowercase for
Black. -/
def pieceOfChar? : Char → Option ChessPiece
  | 'P' => some ⟨.white, .pawn⟩
  | 'N' => some ⟨.white, .knight⟩
  | 'B' => some ⟨.white, .bishop⟩
  | 'R' => some ⟨.white, .rook⟩
  | 'Q' => some ⟨.white, .queen⟩
  | 'K' => some ⟨.white, .king⟩
  | 'p' => some ⟨.black, .pawn⟩
  | 'n' => some ⟨.black, .knight⟩
  | 'b' => some ⟨.black, .bishop⟩
  | 'r' => some ⟨.black, .rook⟩
  | 'q' => some ⟨.black, .queen⟩
  | 'k' => some ⟨.black, .king⟩
  | _ => none

/-- One placement rank as cells: a piece letter is one occupied cell, a
digit `1`–`8` that many empty cells, anything else is malformed. -/
def cellsOfRank : List Char → Option (List (Option ChessPiece))
  | [] => some []
  | c :: cs => do
    let rest ← cellsOfRank cs
    match pieceOfChar? c with
    | some p => some (some p :: rest)
    | none =>
      match charToDigit? c with
      | some n => if 1 ≤ n ∧ n ≤ 8 then some (List.replicate n none ++ rest)
                  else none
      | none => none

/-- A decoded position (spec §3). -/
structure Position where
  board : List (List (Option ChessPiece))
  sideToMove : PieceColor
  castleWK : Bool
  castleWQ : Bool
  castleBK : Bool
  castleBQ : Bool
  epTarget : Option (Nat × Nat)
  halfmove : Nat
  fullmove : Nat
deriving DecidableEq

/-- Lenient en-passant field reading used by `decode`: a file letter and
rank digit give a square, anything else gives no target (the spec makes
decode fail only on the field count and the placement section). -/
def readEpField (ep : List Char) : Option (Nat × Nat) :=
  match ep with
  | [c0, c1] => do
    let f ← filesIndex c0
    let r ← charToDigit? c1
    some (f, r)
  | _ => none

/-- Lenient decimal reading for the move counters. -/
def readNat (l : List Char) : Nat :=
  l.foldl (fun n c => n * 10 + (charToDigit? c).getD 0) 0

/-- Modelled from the spec: the Board Model's `decode(state_string)`
(§4.1) has no implementation among the source scripts, which only split
the string and pass malformed input through; per the spec it fails with
`MalformedState` when the string does not split into exactly six
whitespace-separated fields, when the placement does not have exactly 8
ranks, when a rank holds an unrecognized character, or when a rank does
not total exactly 8 files.  Fields the spec assigns no failure condition
(side-to-move, castling, en-passant, counters) are read leniently. -/
def decode (s : List Char) : Except DecodeError Position :=
  match splitWs s with
  | [bp, ac, ca, ep, hm, fm] =>
    let ranks := splitOnSlash bp
    if ranks.length = 8 then
      match ranks.mapM cellsOfRank with
      | some rows =>
        if rows.all (fun row => row.length = 8) then
          Except.ok
            { board := rows
              sideToMove := if ac = ['w'] then .white else .black
              castleWK := 'K' ∈ ca
              castleWQ := 'Q' ∈ ca
              castleBK := 'k' ∈ ca
              castleBQ := 'q' ∈ ca
              epTarget := readEpField ep
              halfmove := readNat hm
              fullmove := max 1 (readNat fm) }
        else Except.error .MalformedState
      | none => Except.error .MalformedState
    else Except.error .MalformedState
  | _ => Except.error .MalformedState

/-! ### Claim-side predicates

Board-level statements of the conditions the claims talk about, written
from the claims' words; the theorems below relate them to the embedded
functions. -/

/-- The en-passant field is justified by the board, existential
adjacency: the en-passant square names an on-board file, the rank matches
the side that just moved (rank 3 when the side to move is not `"w"`,
rank 6 when it is), the pawn that would have double-advanced stands on
the capture rank of the target's file, and AT LEAST ONE on-board file
adjacent to the target's file holds an opposing-colored pawn on that
capture rank. -/
def epKeepSpec (board : List (List Char)) (active ep : List Char) : Bool :=
  match ep.get? 0, ep.get? 1 with
  | some c0, some c1 =>
    if 0 ≤ fileIdxOf c0 ∧ fileIdxOf c0 < 8 then
      let fi := (fileIdxOf c0).toNat
      if active ≠ ['w'] then
        (c1 == '3') && (pyCell board 4 fi == some 'P') &&
          ((decide (0 < fi) && (pyCell board 4 (fi - 1) == some 'p')) ||
           (decide (fi < 7) && (pyCell board 4 (fi + 1) == some 'p')))
      else
        (c1 == '6') && (pyCell board 3 fi == some 'p') &&
          ((decide (0 < fi) && (pyCell board 3 (fi - 1) == some 'P')) ||
           (decide (fi < 7) && (pyCell board 3 (fi + 1) == some 'P')))
    else false
  | _, _ => false

/-- The condition exactly as claim C1 words it, universal adjacency: every
on-board file adjacent to the target's file must hold an opposing-colored
pawn on the capture rank. -/
def epKeepClaimAll (board : List (List Char)) (active ep : List Char) : Bool :=
  match ep.get? 0, ep.get? 1 with
  | some c0, some c1 =>
    if 0 ≤ fileIdxOf c0 ∧ fileIdxOf c0 < 8 then
      let fi := (fileIdxOf c0).toNat
      if active ≠ ['w'] then
        (c1 == '3') && (pyCell board 4 fi == some 'P') &&
          ((!decide (0 < fi) || (pyCell board 4 (fi - 1) == some 'p')) &&
           (!decide (fi < 7) || (pyCell board 4 (fi + 1) == some 'p')))
      else
        (c1 == '6') && (pyCell board 3 fi == some 'p') &&
          ((!decide (0 < fi) || (pyCell board 3 (fi - 1) == some 'P')) &&
           (!decide (fi < 7) || (pyCell board 3 (fi + 1) == some 'P')))
    else false
  | _, _ => false

/-- Board row index of the square one step ahead of the home-rank pawn. -/
def oneStepIdx (color : List Char) : Nat :=
  if color = ("white").toList then 5 else 2

/-- Board row index of the square two steps ahead of the home-rank pawn. -/
def twoStepIdx (color : List Char) : Nat :=
  if color = ("white").toList then 4 else 3

/-- The board cell `k` steps out from the origin along the requested
diagonal (for `1 ≤ k < file_diff` these are exactly the squares strictly
between origin and destination). -/
def betweenCell (board : List (List Char)) (ff fr tf tr k : Nat) : Char :=
  cellI board ((8 - (fr : Int)) + k * stepRow fr tr) ((ff : Int) + k * stepF ff tf)

end DailyChess

namespace DailyChess

-- sanity checks against the script's own test cases
example :
    validate_en_passant
      ("rnbqkbnr/pppp1ppp/8/4p3/8/P7/1PPPPPPP/RNBQKBNR w KQkq e6 0 2").toList
    = some ("rnbqkbnr/pppp1ppp/8/4p3/8/P7/1PPPPPPP/RNBQKBNR w KQkq - 0 2").toList := by
  decide

-- the script's second test case expects `e6` kept, but its FEN says Black is
-- to move, so the code deems White the last mover and corrects `e6` to `-`
example :
    validate_en_passant
      ("rnbqkbnr/pppp1ppp/8/3Pp3/8/8/PPP1PPPP/RNBQKBNR b KQkq e6 0 2").toList
    = some ("rnbqkbnr/pppp1ppp/8/3Pp3/8/8/PPP1PPPP/RNBQKBNR b KQkq - 0 2").toList := by
  decide

-- with the game-consistent side to move, `e6` is kept
example :
    validate_en_passant
      ("rnbqkbnr/pppp1ppp/8/3Pp3/8/8/PPP1PPPP/RNBQKBNR w KQkq e6 0 2").toList
    = some ("rnbqkbnr/pppp1ppp/8/3Pp3/8/8/PPP1PPPP/RNBQKBNR w KQkq e6 0 2").toList := by
  decide

example :
    validate_en_passant
      ("rnbqkbnr/ppp1pppp/8/3p4/3P4/8/PPP1PPPP/RNBQKBNR w KQkq d6 0 2").toList
    = some ("rnbqkbnr/ppp1pppp/8/3p4/3P4/8/PPP1PPPP/RNBQKBNR w KQkq - 0 2").toList := by
  decide

-- pawn generator on the starting board: every pawn gets its single and
-- double advance, in row-major order
example :
    analyze_pawn_moves
      (parseBoard ("rnbqkbnr/pppppppp/8/8/8/8/PPPPPPPP/RNBQKBNR").toList)
      ("white").toList
    = [("a3").toList, ("a4").toList, ("b3").toList, ("b4").toList,
       ("c3").toList, ("c4").toList, ("d3").toList, ("d4").toList,
       ("e3").toList, ("e4").toList, ("f3").toList, ("f4").toList,
       ("g3").toList, ("g4").toList, ("h3").toList, ("h4").toList] := by
  decide

-- bishop checks from the script's scenarios: Be2 from the start hits the
-- pawn on e2 (destination occupied), f1→c4 after 1.e4 e5 is legal
example :
    can_bishop_move_to
      (parseBoard ("rnbqkbnr/pppppppp/8/8/8/8/PPPPPPPP/RNBQKBNR").toList)
      ("f1").toList ("e2").toList ("white").toList
    = some (false, ("Destination occupied by own piece").toList) := by
  decide

example :
    can_bishop_move_to
      (parseBoard ("rnbqkbnr/pppp1ppp/8/4p3/4P3/8/PPPP1PPP/RNBQKBNR").toList)
      ("f1").toList ("c4").toList ("white").toList
    = some (true, ("Legal move").toList) := by
  decide

example :
    can_bishop_move_to
      (parseBoard ("rnbqkbnr/pppppppp/8/8/8/8/PPPPPPPP/RNBQKBNR").toList)
      ("c1").toList ("e3").toList ("white").toList
    = some (false, ("Path blocked at d2").toList) := by
  decide

/-! ### Lemmas on whitespace splitting and rejoining -/

theorem splitWsAux_word (w : List Char) (hw : ∀ c ∈ w, ¬ c.isWhitespace) :
    ∀ acc rest, splitWsAux acc (w ++ rest) = splitWsAux (w.reverse ++ acc) rest := by
  induction w with
  | nil => intro acc rest; simp
  | cons c w ih =>
    intro acc rest
    have hc : ¬ c.isWhitespace := hw c (by simp)
    have hw' : ∀ x ∈ w, ¬ x.isWhitespace := fun x hx => hw x (by simp [hx])
    have h1 : splitWsAux acc ((c :: w) ++ rest) = splitWsAux (c :: acc) (w ++ rest) := by
      simp [splitWsAux, hc]
    rw [h1, ih hw']
    simp [List.reverse_cons, List.append_assoc]

theorem splitWsAux_flush (acc rest : List Char) (ha : acc ≠ []) :
    splitWsAux acc (' ' :: rest) = acc.reverse :: splitWsAux [] rest := by
  have hsp : (' ' : Char).isWhitespace = true := by decide
  have hne : acc.isEmpty = false := by
    cases acc with
    | nil => exact absurd rfl ha
    | cons x xs => rfl
  simp [splitWsAux, hsp, hne]

theorem splitWsAux_last (acc : List Char) (ha : acc ≠ []) :
    splitWsAux acc [] = [acc.reverse] := by
  have hne : acc.isEmpty = false := by
    cases acc with
    | nil => exact absurd rfl ha
    | cons x xs => rfl
  simp [splitWsAux, hne]

/-- Every field produced by `splitWs` is nonempty and whitespace-free. -/
theorem splitWsAux_mem :
    ∀ (s acc : List Char), (∀ c ∈ acc, ¬ c.isWhitespace) →
      ∀ w ∈ splitWsAux acc s, w ≠ [] ∧ ∀ c ∈ w, ¬ c.isWhitespace := by
  intro s
  induction s with
  | nil =>
    intro acc hacc w hw
    by_cases he : acc.isEmpty
    · simp [splitWsAux, he] at hw
    · rw [splitWsAux_last acc (by simpa [List.isEmpty_iff] using he)] at hw
      simp only [List.mem_singleton] at hw
      subst hw
      refine ⟨by simpa [List.isEmpty_iff] using he, ?_⟩
      intro c hc
      exact hacc c (by simpa using hc)
  | cons x xs ih =>
    intro acc hacc w hw
    by_cases hx : x.isWhitespace
    · by_cases he : acc.isEmpty
      · rw [show splitWsAux acc (x :: xs) = splitWsAux [] xs by
          simp [splitWsAux, hx, he]] at hw
        exact ih [] (by simp) w hw
      · rw [show splitWsAux acc (x :: xs) = acc.reverse :: splitWsAux [] xs by
          simp [splitWsAux, hx, he]] at hw
        rcases List.mem_cons.mp hw with h | h
        · subst h
          refine ⟨by simpa [List.isEmpty_iff] using he, ?_⟩
          intro c hc
          exact hacc c (by simpa using hc)
        · exact ih [] (by simp) w h
    · rw [show splitWsAux acc (x :: xs) = splitWsAux (x :: acc) xs by
        simp [splitWsAux, hx]] at hw
      refine ih (x :: acc) ?_ w hw
      intro c hc
      rcases List.mem_cons.mp hc with h | h
      · subst h; exact hx
      · exact hacc c h

theorem splitWs_mem (s : List Char) (w : List Char) (hw : w ∈ splitWs s) :
    w ≠ [] ∧ ∀ c ∈ w, ¬ c.isWhitespace :=
  splitWsAux_mem s [] (by simp) w hw

/-- Rejoining well-formed fields with single spaces and splitting again
recovers the fields. -/
theorem splitWs_joinSp :
    ∀ L : List (List Char),
      (∀ w ∈ L, w ≠ [] ∧ ∀ c ∈ w, ¬ c.isWhitespace) →
      splitWs (joinSp L) = L := by
  intro L
  induction L with
  | nil => intro _; rfl
  | cons w ws ih =>
    intro hL
    have hw := hL w (by simp)
    have hws : ∀ x ∈ ws, x ≠ [] ∧ ∀ c ∈ x, ¬ c.isWhitespace :=
      fun x hx => hL x (by simp [hx])
    have hrev : w.reverse ≠ [] := by
      simpa using hw.1
    cases ws with
    | nil =>
      show splitWsAux [] (joinSp [w]) = [w]
      have : joinSp [w] = w ++ [] := by simp [joinSp]
      rw [this, splitWsAux_word w hw.2, List.append_nil, splitWsAux_last _ hrev,
        List.reverse_reverse]
    | cons w2 ws2 =>
      show splitWsAux [] (joinSp (w :: w2 :: ws2)) = w :: w2 :: ws2
      have hjoin : joinSp (w :: w2 :: ws2) = w ++ (' ' :: joinSp (w2 :: ws2)) := rfl
      rw [hjoin, splitWsAux_word w hw.2, List.append_nil,
        splitWsAux_flush _ _ hrev, List.reverse_reverse]
      exact congrArg (w :: ·) (ih hws)

/-! ### Lemmas on `validate_en_passant` -/

theorem exists_six {α : Type} (l : List α) (h : l.length = 6) :
    ∃ x1 x2 x3 x4 x5 x6, l = [x1, x2, x3, x4, x5, x6] := by
  rcases l with _ | ⟨x1, _ | ⟨x2, _ | ⟨x3, _ | ⟨x4, _ | ⟨x5, _ | ⟨x6, _ | ⟨x7, t⟩⟩⟩⟩⟩⟩⟩ <;>
    simp_all

theorem validate_six (fen b a c e hm fm : List Char)
    (hs : splitWs fen = [b, a, c, e, hm, fm]) :
    validate_en_passant fen = validateSix b a c e hm fm := by
  unfold validate_en_passant
  rw [hs]

theorem validate_not6 (fen : List Char) (h : (splitWs fen).length ≠ 6) :
    validate_en_passant fen = some fen := by
  unfold validate_en_passant
  rcases hs : splitWs fen with
      _ | ⟨x1, _ | ⟨x2, _ | ⟨x3, _ | ⟨x4, _ | ⟨x5, _ | ⟨x6, _ | ⟨x7, t⟩⟩⟩⟩⟩⟩⟩ <;>
    simp_all

/-- What `validate_en_passant` returned on a six-field input: either the
en-passant field was `"-"` and the fields were rejoined as they were, or
the validity computation completed and the field was kept or replaced
accordingly. -/
theorem validate_out_fields (fen out b a c e hm fm : List Char)
    (hs : splitWs fen = [b, a, c, e, hm, fm])
    (hv : validate_en_passant fen = some out) :
    (e = ['-'] ∧ out = joinSp [b, a, c, e, hm, fm]) ∨
    (e ≠ ['-'] ∧ ∃ v, epCheck (parseBoard b) a e = some v ∧
      out = joinSp [b, a, c, (if v then e else ['-']), hm, fm]) := by
  rw [validate_six fen b a c e hm fm hs] at hv
  unfold validateSix at hv
  by_cases he : e = ['-']
  · rw [if_pos he] at hv
    exact Or.inl ⟨he, (Option.some_inj.mp hv).symm⟩
  · rw [if_neg he] at hv
    cases ec : epCheck (parseBoard b) a e with
    | none => rw [ec] at hv; simp at hv
    | some v =>
      rw [ec] at hv
      simp only [Option.map_some'] at hv
      exact Or.inr ⟨he, v, rfl, (Option.some_inj.mp hv).symm⟩

/-- The six fields of a six-field input are nonempty and whitespace-free. -/
theorem fields_wf (fen b a c e hm fm : List Char)
    (hs : splitWs fen = [b, a, c, e, hm, fm]) :
    ∀ w ∈ [b, a, c, e, hm, fm], w ≠ [] ∧ ∀ ch ∈ w, ¬ ch.isWhitespace := by
  intro w hw
  exact splitWs_mem fen w (hs ▸ hw)

/-- Splitting the reconstructed output recovers its six fields, for any
replacement en-passant field that is itself nonempty and whitespace-free. -/
theorem splitWs_reconstruct (b a c e2 hm fm : List Char)
    (h : ∀ w ∈ [b, a, c, e2, hm, fm], w ≠ [] ∧ ∀ ch ∈ w, ¬ ch.isWhitespace) :
    splitWs (joinSp [b, a, c, e2, hm, fm]) = [b, a, c, e2, hm, fm] :=
  splitWs_joinSp [b, a, c, e2, hm, fm] h

theorem dash_wf : (['-'] : List Char) ≠ [] ∧ ∀ ch ∈ (['-'] : List Char), ¬ ch.isWhitespace := by
  refine ⟨by simp, ?_⟩
  intro ch hch
  simp only [List.mem_singleton] at hch
  subst hch
  decide

/-- An ASCII digit character is determined by its digit value. -/
theorem charToDigit_toNat (c : Char) (n : Nat) (h : charToDigit? c = some n) :
    c.toNat = 48 + n ∧ n ≤ 9 := by
  unfold charToDigit? at h
  by_cases hd : c.isDigit
  · rw [if_pos hd] at h
    have hn := Option.some_inj.mp h
    rw [show ('0').toNat = 48 from rfl] at hn
    simp only [Char.isDigit, Bool.and_eq_true, decide_eq_true_eq,
      UInt32.le_def, BitVec.le_def,
      show (UInt32.toBitVec 48).toNat = 48 from rfl,
      show (UInt32.toBitVec 57).toNat = 57 from rfl] at hd
    have htn : c.toNat = c.val.toBitVec.toNat := rfl
    omega
  · rw [if_neg hd] at h
    exact Option.noConfusion h

theorem charToDigit_eq_three (c : Char) (h : charToDigit? c = some 3) : c = '3' := by
  have h51 := (charToDigit_toNat c 3 h).1
  apply Char.ext
  apply UInt32.ext
  show c.toNat = ('3').toNat
  rw [h51]
  decide

theorem charToDigit_eq_six (c : Char) (h : charToDigit? c = some 6) : c = '6' := by
  have h54 := (charToDigit_toNat c 6 h).1
  apply Char.ext
  apply UInt32.ext
  show c.toNat = ('6').toNat
  rw [h54]
  decide

theorem adjCheck_spec (board : List (List Char)) (row fi : Nat) (target : Char)
    (v : Bool) (h : adjCheck board row fi target = some v) :
    ((decide (0 < fi) && (pyCell board row (fi - 1) == some target)) ||
     (decide (fi < 7) && (pyCell board row (fi + 1) == some target))) = v := by
  unfold adjCheck at h
  by_cases h0 : 0 < fi
  · rw [if_pos h0] at h
    cases ecl : pyCell board row (fi - 1) with
    | none => simp [ecl] at h
    | some cl =>
      simp only [ecl, Option.map_some'] at h
      by_cases h7 : fi < 7
      · rw [if_pos h7] at h
        cases ecr : pyCell board row (fi + 1) with
        | none => simp [ecr] at h
        | some cr =>
          simp only [ecr, Option.map_some', Option.some_inj] at h
          rw [show ((some cl : Option Char) == some target) = (cl == target) from rfl,
            show ((some cr : Option Char) == some target) = (cr == target) from rfl,
            ← h]
          simp [h0, h7]
      · rw [if_neg h7] at h
        simp only [Option.some_inj] at h
        rw [show ((some cl : Option Char) == some target) = (cl == target) from rfl,
          ← h]
        simp [h0, h7]
  · rw [if_neg h0] at h
    by_cases h7 : fi < 7
    · rw [if_pos h7] at h
      cases ecr : pyCell board row (fi + 1) with
      | none => simp [ecr] at h
      | some cr =>
        simp only [ecr, Option.map_some', Option.some_inj] at h
        rw [show ((some cr : Option Char) == some target) = (cr == target) from rfl,
          ← h]
        simp [h0, h7]
    · rw [if_neg h7] at h
      simp only [Option.some_inj] at h
      rw [← h]
      simp [h0, h7]

/-- Whenever the validity computation completes, its verdict agrees with
the board-level keep condition (existential adjacency). -/
theorem epCheck_spec (board : List (List Char)) (active ep : List Char)
    (v : Bool) (h : epCheck board active ep = some v) :
    epKeepSpec board active ep = v := by
  unfold epCheck at h
  unfold epKeepSpec
  cases e0 : ep.get? 0 with
  | none => rw [e0] at h; exact Option.noConfusion h
  | some c0 =>
    simp only [e0] at h
    cases e1 : ep.get? 1 with
    | none => rw [e1] at h; exact Option.noConfusion h
    | some c1 =>
      simp only [e1] at h
      cases er : charToDigit? c1 with
      | none => rw [er] at h; exact Option.noConfusion h
      | some rank =>
        simp only [er] at h
        simp only [e0, e1]
        by_cases ha : active = ['w']
        · -- last mover Black: the code requires rank 6
          have hcond1 : ¬ (active ≠ ['w'] ∧ rank = 3) := fun hc => hc.1 ha
          rw [if_neg hcond1] at h
          by_cases hr : rank = 6
          · have hc1 : c1 = '6' := charToDigit_eq_six c1 (hr ▸ er)
            rw [if_pos ⟨ha, hr⟩] at h
            by_cases hir : 0 ≤ fileIdxOf c0 ∧ fileIdxOf c0 < 8
            · rw [if_pos hir] at h
              cases ec : pyCell board 3 (fileIdxOf c0).toNat with
              | none => rw [ec] at h; exact Option.noConfusion h
              | some ch =>
                simp only [ec] at h
                by_cases hch : ch = 'p'
                · rw [if_pos (by simp [hch])] at h
                  have hadj := adjCheck_spec board 3 (fileIdxOf c0).toNat 'P' v h
                  rw [if_pos hir, if_neg (fun hne => hne ha), hc1, hch, ← hadj]
                  simp
                · rw [if_neg (by simp [hch])] at h
                  have hv : v = false := (Option.some_inj.mp h).symm
                  subst hv
                  rw [if_pos hir, if_neg (fun hne => hne ha)]
                  simp [hch]
            · rw [if_neg hir] at h
              have hv : v = false := (Option.some_inj.mp h).symm
              subst hv
              rw [if_neg hir]
          · have hcond2 : ¬ (active = ['w'] ∧ rank = 6) := fun hc => hr hc.2
            rw [if_neg hcond2] at h
            have hv : v = false := (Option.some_inj.mp h).symm
            subst hv
            have hc1 : c1 ≠ '6' := by
              intro hc
              rw [hc, show charToDigit? '6' = some 6 from rfl] at er
              exact hr (Option.some_inj.mp er).symm
            by_cases hir : 0 ≤ fileIdxOf c0 ∧ fileIdxOf c0 < 8
            · rw [if_pos hir, if_neg (fun hne => hne ha)]
              simp [hc1]
            · rw [if_neg hir]
        · -- last mover White: the code requires rank 3
          by_cases hr : rank = 3
          · have hc1 : c1 = '3' := charToDigit_eq_three c1 (hr ▸ er)
            rw [if_pos ⟨ha, hr⟩] at h
            by_cases hir : 0 ≤ fileIdxOf c0 ∧ fileIdxOf c0 < 8
            · rw [if_pos hir] at h
              cases ec : pyCell board 4 (fileIdxOf c0).toNat with
              | none => rw [ec] at h; exact Option.noConfusion h
              | some ch =>
                simp only [ec] at h
                by_cases hch : ch = 'P'
                · rw [if_pos (by simp [hch])] at h
                  have hadj := adjCheck_spec board 4 (fileIdxOf c0).toNat 'p' v h
                  rw [if_pos hir, if_pos ha, hc1, hch, ← hadj]
                  simp
                · rw [if_neg (by simp [hch])] at h
                  have hv : v = false := (Option.some_inj.mp h).symm
                  subst hv
                  rw [if_pos hir, if_pos ha]
                  simp [hch]
            · rw [if_neg hir] at h
              have hv : v = false := (Option.some_inj.mp h).symm
              subst hv
              rw [if_neg hir]
          · have hcond1 : ¬ (active ≠ ['w'] ∧ rank = 3) := fun hc => hr hc.2
            rw [if_neg hcond1] at h
            have hcond2 : ¬ (active = ['w'] ∧ rank = 6) := fun hc => ha hc.1
            rw [if_neg hcond2] at h
            have hv : v = false := (Option.some_inj.mp h).symm
            subst hv
            have hc1 : c1 ≠ '3' := by
              intro hc
              rw [hc, show charToDigit? '3' = some 3 from rfl] at er
              exact hr (Option.some_inj.mp er).symm
            by_cases hir : 0 ≤ fileIdxOf c0 ∧ fileIdxOf c0 < 8
            · rw [if_pos hir, if_pos ha]
              simp [hc1]
            · rw [if_neg hir]

/-- A kept en-passant field carries the rank digit matching the side that
the code deems to have just moved. -/
theorem epCheck_true_rank (board : List (List Char)) (active ep : List Char)
    (h : epCheck board active ep = some true) :
    ep.get? 1 = some (if active = ['w'] then '6' else '3') := by
  unfold epCheck at h
  cases e0 : ep.get? 0 with
  | none => rw [e0] at h; exact Option.noConfusion h
  | some c0 =>
    simp only [e0] at h
    cases e1 : ep.get? 1 with
    | none => rw [e1] at h; exact Option.noConfusion h
    | some c1 =>
      simp only [e1] at h
      cases er : charToDigit? c1 with
      | none => rw [er] at h; exact Option.noConfusion h
      | some rank =>
        simp only [er] at h
        by_cases ha : active = ['w']
        · have hcond1 : ¬ (active ≠ ['w'] ∧ rank = 3) := fun hc => hc.1 ha
          rw [if_neg hcond1] at h
          by_cases hr : rank = 6
          · have hc1 : c1 = '6' := charToDigit_eq_six c1 (hr ▸ er)
            simp [ha, hc1]
          · have hcond2 : ¬ (active = ['w'] ∧ rank = 6) := fun hc => hr hc.2
            rw [if_neg hcond2] at h
            simp at h
        · by_cases hr : rank = 3
          · have hc1 : c1 = '3' := charToDigit_eq_three c1 (hr ▸ er)
            simp [ha, hc1]
          · have hcond1 : ¬ (active ≠ ['w'] ∧ rank = 3) := fun hc => hr hc.2
            rw [if_neg hcond1] at h
            have hcond2 : ¬ (active = ['w'] ∧ rank = 6) := fun hc => ha hc.1
            rw [if_neg hcond2] at h
            simp at h

/-! ### Lemmas on the pawn-move generator -/

theorem mkMove_54 (f : Nat) : mkMove f 5 ≠ mkMove f 4 := by
  intro h
  have h2 : (mkMove f 5).getD 1 ' ' = (mkMove f 4).getD 1 ' ' :=
    congrArg (fun l => l.getD 1 ' ') h
  rw [show (mkMove f 5).getD 1 ' ' = '3' from rfl,
      show (mkMove f 4).getD 1 ' ' = '4' from rfl] at h2
  exact absurd h2 (by decide)

theorem mkMove_23 (f : Nat) : mkMove f 2 ≠ mkMove f 3 := by
  intro h
  have h2 : (mkMove f 2).getD 1 ' ' = (mkMove f 3).getD 1 ' ' :=
    congrArg (fun l => l.getD 1 ' ') h
  rw [show (mkMove f 2).getD 1 ' ' = '6' from rfl,
      show (mkMove f 3).getD 1 ' ' = '5' from rfl] at h2
  exact absurd h2 (by decide)

/-- The generator's contribution of a White pawn on its home rank
(board row 6): the single advance when row 5 is empty, plus the double
advance when row 4 is empty as well. -/
theorem pawnMovesAt_start_white (board : List (List Char)) (fi : Nat)
    (hp : cellD board 6 fi = 'P') :
    pawnMovesAt board ("white").toList 6 fi =
      if cellD board 5 fi = '.' then
        if cellD board 4 fi = '.' then [mkMove fi 5, mkMove fi 4]
        else [mkMove fi 5]
      else [] := by
  unfold pawnMovesAt
  rw [if_pos (show cellD board 6 fi = pawnChar ("white").toList from hp)]
  show (if 0 ≤ (5 : Int) ∧ (5 : Int) < 8 ∧ cellD board 5 fi = '.' then
          if (6 : Nat) = startRank ("white").toList then
            if cellD board 4 fi = '.' then [mkMove fi 5, mkMove fi 4]
            else [mkMove fi 5]
          else [mkMove fi 5]
        else []) = _
  by_cases hc1 : cellD board 5 fi = '.'
  · rw [if_pos ⟨by decide, by decide, hc1⟩, if_pos (by rfl), if_pos hc1]
  · rw [if_neg (fun hh => hc1 hh.2.2), if_neg hc1]

/-- The generator's contribution of a Black pawn on its home rank
(board row 1). -/
theorem pawnMovesAt_start_black (board : List (List Char)) (fi : Nat)
    (hp : cellD board 1 fi = 'p') :
    pawnMovesAt board ("black").toList 1 fi =
      if cellD board 2 fi = '.' then
        if cellD board 3 fi = '.' then [mkMove fi 2, mkMove fi 3]
        else [mkMove fi 2]
      else [] := by
  unfold pawnMovesAt
  rw [if_pos (show cellD board 1 fi = pawnChar ("black").toList from hp)]
  show (if 0 ≤ (2 : Int) ∧ (2 : Int) < 8 ∧ cellD board 2 fi = '.' then
          if (1 : Nat) = startRank ("black").toList then
            if cellD board 3 fi = '.' then [mkMove fi 2, mkMove fi 3]
            else [mkMove fi 2]
          else [mkMove fi 2]
        else []) = _
  by_cases hc1 : cellD board 2 fi = '.'
  · rw [if_pos ⟨by decide, by decide, hc1⟩, if_pos (by rfl), if_pos hc1]
  · rw [if_neg (fun hh => hc1 hh.2.2), if_neg hc1]

/-! ### Claim C5 -/

/-- C5: any input state string that does not split into exactly six
whitespace-separated fields is rejected by `decode` with
`MalformedState`, and no partial `Position` is produced (the `Except`
error carries no position). -/
theorem decode_not_six_malformed (s : List Char)
    (h : (splitWs s).length ≠ 6) :
    decode s = Except.error DecodeError.MalformedState := by
  unfold decode
  rcases hs : splitWs s with
      _ | ⟨x1, _ | ⟨x2, _ | ⟨x3, _ | ⟨x4, _ | ⟨x5, _ | ⟨x6, _ | ⟨x7, t⟩⟩⟩⟩⟩⟩⟩ <;>
    simp_all

/-- Instance of `decode_not_six_malformed` at a three-field input. -/
theorem decode_not_six_malformed_witness :
    (splitWs ("abc w -").toList).length ≠ 6 ∧
      decode ("abc w -").toList = Except.error DecodeError.MalformedState :=
  ⟨by decide, decode_not_six_malformed ("abc w -").toList (by decide)⟩

/-! ### Claim C8 -/

/-- C8: the en-passant validator is deterministic (it is a function) and
idempotent: running it on its own output returns that output unchanged,
so repetition never changes the outcome. -/
theorem validate_en_passant_idem (fen : List Char) :
    (validate_en_passant fen).bind validate_en_passant
      = validate_en_passant fen := by
  cases hv : validate_en_passant fen with
  | none => rfl
  | some out =>
    show validate_en_passant out = some out
    by_cases h6 : (splitWs fen).length = 6
    · obtain ⟨b, a, c, e, hm, fm, hs⟩ := exists_six (splitWs fen) h6
      have hwf := fields_wf fen b a c e hm fm hs
      rcases validate_out_fields fen out b a c e hm fm hs hv with
        ⟨he, hout⟩ | ⟨he, v, hec, hout⟩
      · have hso : splitWs out = [b, a, c, e, hm, fm] := by
          rw [hout]; exact splitWs_reconstruct b a c e hm fm hwf
        rw [validate_six out b a c e hm fm hso]
        unfold validateSix
        rw [if_pos he, hout]
      · cases v with
        | true =>
          have hout' : out = joinSp [b, a, c, e, hm, fm] := by
            simpa using hout
          have hso : splitWs out = [b, a, c, e, hm, fm] := by
            rw [hout']; exact splitWs_reconstruct b a c e hm fm hwf
          rw [validate_six out b a c e hm fm hso]
          unfold validateSix
          rw [if_neg he, hec]
          simp [hout']
        | false =>
          have hout' : out = joinSp [b, a, c, ['-'], hm, fm] := by
            simpa using hout
          have hwf' : ∀ w ∈ [b, a, c, (['-'] : List Char), hm, fm],
              w ≠ [] ∧ ∀ ch ∈ w, ¬ ch.isWhitespace := by
            intro w hw
            simp only [List.mem_cons, List.not_mem_nil, or_false] at hw
            rcases hw with rfl | rfl | rfl | rfl | rfl | rfl
            · exact hwf w (by simp)
            · exact hwf w (by simp)
            · exact hwf w (by simp)
            · exact dash_wf
            · exact hwf w (by simp)
            · exact hwf w (by simp)
          have hso : splitWs out = [b, a, c, ['-'], hm, fm] := by
            rw [hout']; exact splitWs_reconstruct b a c ['-'] hm fm hwf'
          rw [validate_six out b a c ['-'] hm fm hso]
          unfold validateSix
          rw [if_pos rfl, hout']
    · rw [validate_not6 fen h6] at hv
      obtain rfl : fen = out := Option.some_inj.mp hv
      rw [validate_not6 fen h6]

/-! ### Claim C9 -/

/-- C9: on a six-field input the validator changes at most the fourth
(en-passant) field, and when it changes it, it changes it to `"-"`; the
other five fields of the output are the input's, character for
character. -/
theorem validate_en_passant_frame (fen out b a c e hm fm : List Char)
    (hv : validate_en_passant fen = some out)
    (hs : splitWs fen = [b, a, c, e, hm, fm]) :
    splitWs out = [b, a, c, e, hm, fm] ∨
      splitWs out = [b, a, c, ['-'], hm, fm] := by
  have hwf := fields_wf fen b a c e hm fm hs
  rcases validate_out_fields fen out b a c e hm fm hs hv with
    ⟨he, hout⟩ | ⟨he, v, hec, hout⟩
  · left
    rw [hout]; exact splitWs_reconstruct b a c e hm fm hwf
  · cases v with
    | true =>
      left
      have hout' : out = joinSp [b, a, c, e, hm, fm] := by simpa using hout
      rw [hout']; exact splitWs_reconstruct b a c e hm fm hwf
    | false =>
      right
      have hout' : out = joinSp [b, a, c, ['-'], hm, fm] := by simpa using hout
      have hwf' : ∀ w ∈ [b, a, c, (['-'] : List Char), hm, fm],
          w ≠ [] ∧ ∀ ch ∈ w, ¬ ch.isWhitespace := by
        intro w hw
        simp only [List.mem_cons, List.not_mem_nil, or_false] at hw
        rcases hw with rfl | rfl | rfl | rfl | rfl | rfl
        · exact hwf w (by simp)
        · exact hwf w (by simp)
        · exact hwf w (by simp)
        · exact dash_wf
        · exact hwf w (by simp)
        · exact hwf w (by simp)
      rw [hout']; exact splitWs_reconstruct b a c ['-'] hm fm hwf'

/-- Instance of `validate_en_passant_frame` on a six-field input whose
en-passant field gets corrected. -/
theorem validate_en_passant_frame_witness :
    splitWs ("rnbqkbnr/pppp1ppp/8/4p3/8/P7/1PPPPPPP/RNBQKBNR w KQkq - 0 2").toList
        = [("rnbqkbnr/pppp1ppp/8/4p3/8/P7/1PPPPPPP/RNBQKBNR").toList, ['w'],
           ("KQkq").toList, ("e6").toList, ['0'], ['2']] ∨
      splitWs ("rnbqkbnr/pppp1ppp/8/4p3/8/P7/1PPPPPPP/RNBQKBNR w KQkq - 0 2").toList
        = [("rnbqkbnr/pppp1ppp/8/4p3/8/P7/1PPPPPPP/RNBQKBNR").toList, ['w'],
           ("KQkq").toList, ['-'], ['0'], ['2']] :=
  validate_en_passant_frame
    ("rnbqkbnr/pppp1ppp/8/4p3/8/P7/1PPPPPPP/RNBQKBNR w KQkq e6 0 2").toList
    ("rnbqkbnr/pppp1ppp/8/4p3/8/P7/1PPPPPPP/RNBQKBNR w KQkq - 0 2").toList
    ("rnbqkbnr/pppp1ppp/8/4p3/8/P7/1PPPPPPP/RNBQKBNR").toList ['w']
    ("KQkq").toList ("e6").toList ['0'] ['2'] (by decide) (by decide)

/-! ### Claim C1 -/

/-- C1 as stated is false: the validator requires an opposing pawn on at
least ONE adjacent file, not on each adjacent on-board file.  Here Black
has a pawn on d4 but none on f4 (both files are on the board), the claim's
universal condition fails, yet the square `e3` is kept. -/
theorem validate_keep_counterexample :
    validate_en_passant
        ("rnbqkbnr/ppp1pppp/8/8/3pP3/8/PPPP1PPP/RNBQKBNR b KQkq e3 0 2").toList
      = some ("rnbqkbnr/ppp1pppp/8/8/3pP3/8/PPPP1PPP/RNBQKBNR b KQkq e3 0 2").toList ∧
    epKeepClaimAll
        (parseBoard ("rnbqkbnr/ppp1pppp/8/8/3pP3/8/PPPP1PPP/RNBQKBNR").toList)
        ['b'] ("e3").toList = false := by
  constructor
  · decide
  · decide

/-- C1 amended: on a six-field input whose en-passant field is not `"-"`,
the output's en-passant field keeps the square exactly when the
just-moved side's pawn stands on the capture rank of the target's file,
the target's rank matches that side (3 after a White move, 6 after a
Black one), and AT LEAST ONE adjacent on-board file holds an
opposing-colored pawn on the capture rank; in every other case the
output's en-passant field is `"-"`. -/
theorem validate_keep_iff (fen out b a c e hm fm : List Char)
    (hv : validate_en_passant fen = some out)
    (hs : splitWs fen = [b, a, c, e, hm, fm])
    (he : e ≠ ['-']) :
    (splitWs out).get? 3 =
      some (if epKeepSpec (parseBoard b) a e then e else ['-']) := by
  have hwf := fields_wf fen b a c e hm fm hs
  rcases validate_out_fields fen out b a c e hm fm hs hv with
    ⟨he', _⟩ | ⟨_, v, hec, hout⟩
  · exact absurd he' he
  · have hspec := epCheck_spec (parseBoard b) a e v hec
    cases v with
    | true =>
      rw [hspec]
      have hout' : out = joinSp [b, a, c, e, hm, fm] := by simpa using hout
      have hso : splitWs out = [b, a, c, e, hm, fm] := by
        rw [hout']; exact splitWs_reconstruct b a c e hm fm hwf
      rw [hso]
      rfl
    | false =>
      rw [hspec]
      have hout' : out = joinSp [b, a, c, ['-'], hm, fm] := by simpa using hout
      have hwf' : ∀ w ∈ [b, a, c, (['-'] : List Char), hm, fm],
          w ≠ [] ∧ ∀ ch ∈ w, ¬ ch.isWhitespace := by
        intro w hw
        simp only [List.mem_cons, List.not_mem_nil, or_false] at hw
        rcases hw with rfl | rfl | rfl | rfl | rfl | rfl
        · exact hwf w (by simp)
        · exact hwf w (by simp)
        · exact hwf w (by simp)
        · exact dash_wf
        · exact hwf w (by simp)
        · exact hwf w (by simp)
      have hso : splitWs out = [b, a, c, ['-'], hm, fm] := by
        rw [hout']; exact splitWs_reconstruct b a c ['-'] hm fm hwf'
      rw [hso]
      rfl

/-- Instance of `validate_keep_iff` on the input whose invalid `e6` field
gets corrected to `"-"`. -/
theorem validate_keep_iff_witness :
    (splitWs ("rnbqkbnr/pppp1ppp/8/4p3/8/P7/1PPPPPPP/RNBQKBNR w KQkq - 0 2").toList).get? 3
      = some (if epKeepSpec
          (parseBoard ("rnbqkbnr/pppp1ppp/8/4p3/8/P7/1PPPPPPP/RNBQKBNR").toList)
          ['w'] ("e6").toList then ("e6").toList else ['-']) :=
  validate_keep_iff
    ("rnbqkbnr/pppp1ppp/8/4p3/8/P7/1PPPPPPP/RNBQKBNR w KQkq e6 0 2").toList
    ("rnbqkbnr/pppp1ppp/8/4p3/8/P7/1PPPPPPP/RNBQKBNR w KQkq - 0 2").toList
    ("rnbqkbnr/pppp1ppp/8/4p3/8/P7/1PPPPPPP/RNBQKBNR").toList ['w']
    ("KQkq").toList ("e6").toList ['0'] ['2'] (by decide) (by decide) (by decide)

/-! ### Claim C6 -/

/-- C6: whenever the validator's output carries an en-passant square (its
fourth field is not `"-"`), that square's rank digit is `3` when the side
that just moved is White (side-to-move field not `"w"`) and `6` when the
side that just moved is Black (side-to-move field `"w"`); no output ever
carries a target on any other rank. -/
theorem validate_out_rank (fen out b a c e hm fm : List Char)
    (hv : validate_en_passant fen = some out)
    (hso : splitWs out = [b, a, c, e, hm, fm])
    (he : e ≠ ['-']) :
    e.get? 1 = some (if a = ['w'] then '6' else '3') := by
  by_cases h6 : (splitWs fen).length = 6
  · obtain ⟨b2, a2, c2, e2, hm2, fm2, hs⟩ := exists_six (splitWs fen) h6
    have hwf := fields_wf fen b2 a2 c2 e2 hm2 fm2 hs
    rcases validate_out_fields fen out b2 a2 c2 e2 hm2 fm2 hs hv with
      ⟨he2, hout⟩ | ⟨he2, v, hec, hout⟩
    · have hso2 : splitWs out = [b2, a2, c2, e2, hm2, fm2] := by
        rw [hout]; exact splitWs_reconstruct b2 a2 c2 e2 hm2 fm2 hwf
      rw [hso] at hso2
      simp only [List.cons.injEq, and_true] at hso2
      exact absurd (hso2.2.2.2.1.trans he2) he
    · cases v with
      | true =>
        have hout' : out = joinSp [b2, a2, c2, e2, hm2, fm2] := by simpa using hout
        have hso2 : splitWs out = [b2, a2, c2, e2, hm2, fm2] := by
          rw [hout']; exact splitWs_reconstruct b2 a2 c2 e2 hm2 fm2 hwf
        rw [hso] at hso2
        simp only [List.cons.injEq, and_true] at hso2
        obtain ⟨hb, ha, hc, hee, hhm, hfm⟩ := hso2
        rw [← ha, ← hee] at hec
        exact epCheck_true_rank (parseBoard b2) a e hec
      | false =>
        have hout' : out = joinSp [b2, a2, c2, ['-'], hm2, fm2] := by simpa using hout
        have hwf' : ∀ w ∈ [b2, a2, c2, (['-'] : List Char), hm2, fm2],
            w ≠ [] ∧ ∀ ch ∈ w, ¬ ch.isWhitespace := by
          intro w hw
          simp only [List.mem_cons, List.not_mem_nil, or_false] at hw
          rcases hw with rfl | rfl | rfl | rfl | rfl | rfl
          · exact hwf w (by simp)
          · exact hwf w (by simp)
          · exact hwf w (by simp)
          · exact dash_wf
          · exact hwf w (by simp)
          · exact hwf w (by simp)
        have hso2 : splitWs out = [b2, a2, c2, ['-'], hm2, fm2] := by
          rw [hout']; exact splitWs_reconstruct b2 a2 c2 ['-'] hm2 fm2 hwf'
        rw [hso] at hso2
        simp only [List.cons.injEq, and_true] at hso2
        exact absurd hso2.2.2.2.1 he
  · rw [validate_not6 fen h6] at hv
    obtain rfl : fen = out := Option.some_inj.mp hv
    rw [hso] at h6
    simp at h6

/-- Instance of `validate_out_rank` on an output that keeps `e6` with
Black having just moved. -/
theorem validate_out_rank_witness :
    (("e6").toList).get? 1 = some (if (['w'] : List Char) = ['w'] then '6' else '3') :=
  validate_out_rank
    ("rnbqkbnr/pppp1ppp/8/3Pp3/8/8/PPP1PPPP/RNBQKBNR w KQkq e6 0 2").toList
    ("rnbqkbnr/pppp1ppp/8/3Pp3/8/8/PPP1PPPP/RNBQKBNR w KQkq e6 0 2").toList
    ("rnbqkbnr/pppp1ppp/8/3Pp3/8/8/PPP1PPPP/RNBQKBNR").toList ['w']
    ("KQkq").toList ("e6").toList ['0'] ['2'] (by decide) (by decide) (by decide)

/-! ### Claim C2 -/

/-- C2 as stated is false: after White's e2→e4 with Black pawns on e5 but
none on d4 or f4, the spec expects the derived target `e3` to be kept,
but the code corrects the en-passant field to `"-"` (a pawn on e5 cannot
capture on e3; only a pawn on d4 or f4 could). -/
theorem validate_e4_counterexample :
    validate_en_passant
        ("rnbqkbnr/pppp1ppp/8/4p3/4P3/8/PPPP1PPP/RNBQKBNR b KQkq e3 0 2").toList
      = some ("rnbqkbnr/pppp1ppp/8/4p3/4P3/8/PPPP1PPP/RNBQKBNR b KQkq - 0 2").toList := by
  decide

/-- C2 amended: after e2→e4 with Black's pawn on e5 only, the validator
corrects `e3` to `"-"`; it keeps `e3` when Black has a pawn on an
adjacent capture square (here f4); and after the single advance a2→a3 it
yields `"-"` even with an adjacent Black pawn on b4. -/
theorem validate_e4_cases :
    validate_en_passant
        ("rnbqkbnr/pppp1ppp/8/4p3/4P3/8/PPPP1PPP/RNBQKBNR b KQkq e3 0 2").toList
      = some ("rnbqkbnr/pppp1ppp/8/4p3/4P3/8/PPPP1PPP/RNBQKBNR b KQkq - 0 2").toList ∧
    validate_en_passant
        ("rnbqkbnr/pppp2pp/8/4p3/4Pp2/8/PPPP1PPP/RNBQKBNR b KQkq e3 0 3").toList
      = some ("rnbqkbnr/pppp2pp/8/4p3/4Pp2/8/PPPP1PPP/RNBQKBNR b KQkq e3 0 3").toList ∧
    validate_en_passant
        ("rnbqkbnr/p1pp1ppp/8/4p3/1p6/P7/1PPPPPPP/RNBQKBNR b KQkq a3 0 3").toList
      = some ("rnbqkbnr/p1pp1ppp/8/4p3/1p6/P7/1PPPPPPP/RNBQKBNR b KQkq - 0 3").toList := by
  refine ⟨by decide, by decide, by decide⟩

/-! ### Claim C4 -/

/-- C4: for a pawn of the given color on its home rank (board row 6 for
White, 1 for Black), the generator emits the single advance exactly when
the square ahead is empty, and the double advance exactly when both the
intermediate square and the destination are empty. -/
theorem pawn_home_moves (board : List (List Char)) (color : List Char) (fi : Nat)
    (hc : color = ("white").toList ∨ color = ("black").toList)
    (hp : cellD board (startRank color) fi = pawnChar color) :
    (mkMove fi (oneStepIdx color) ∈ pawnMovesAt board color (startRank color) fi ↔
       cellD board (oneStepIdx color) fi = '.') ∧
    (mkMove fi (twoStepIdx color) ∈ pawnMovesAt board color (startRank color) fi ↔
       (cellD board (oneStepIdx color) fi = '.' ∧
        cellD board (twoStepIdx color) fi = '.')) := by
  rcases hc with rfl | rfl
  · rw [show startRank ("white").toList = 6 from rfl] at hp ⊢
    rw [show pawnChar ("white").toList = 'P' from rfl] at hp
    rw [show oneStepIdx ("white").toList = 5 from rfl,
        show twoStepIdx ("white").toList = 4 from rfl]
    rw [pawnMovesAt_start_white board fi hp]
    by_cases hc1 : cellD board 5 fi = '.'
    · by_cases hc2 : cellD board 4 fi = '.'
      · rw [if_pos hc1, if_pos hc2]
        exact ⟨by simp [hc1], by simp [hc1, hc2]⟩
      · rw [if_pos hc1, if_neg hc2]
        refine ⟨by simp [hc1], ?_, ?_⟩
        · intro hmem
          exact absurd (List.mem_singleton.mp hmem) (Ne.symm (mkMove_54 fi))
        · rintro ⟨_, h2⟩
          exact absurd h2 hc2
    · rw [if_neg hc1]
      exact ⟨by simp [hc1], by simp [hc1]⟩
  · rw [show startRank ("black").toList = 1 from rfl] at hp ⊢
    rw [show pawnChar ("black").toList = 'p' from rfl] at hp
    rw [show oneStepIdx ("black").toList = 2 from rfl,
        show twoStepIdx ("black").toList = 3 from rfl]
    rw [pawnMovesAt_start_black board fi hp]
    by_cases hc1 : cellD board 2 fi = '.'
    · by_cases hc2 : cellD board 3 fi = '.'
      · rw [if_pos hc1, if_pos hc2]
        exact ⟨by simp [hc1], by simp [hc1, hc2]⟩
      · rw [if_pos hc1, if_neg hc2]
        refine ⟨by simp [hc1], ?_, ?_⟩
        · intro hmem
          exact absurd (List.mem_singleton.mp hmem) (Ne.symm (mkMove_23 fi))
        · rintro ⟨_, h2⟩
          exact absurd h2 hc2
    · rw [if_neg hc1]
      exact ⟨by simp [hc1], by simp [hc1]⟩

/-- Instance of `pawn_home_moves`: the b2 pawn of the starting position.
Both b3 and b4 are generated since both squares are empty. -/
theorem pawn_home_moves_witness :
    (mkMove 1 (oneStepIdx ("white").toList) ∈
        pawnMovesAt (parseBoard ("rnbqkbnr/pppppppp/8/8/8/8/PPPPPPPP/RNBQKBNR").toList)
          ("white").toList (startRank ("white").toList) 1 ↔
       cellD (parseBoard ("rnbqkbnr/pppppppp/8/8/8/8/PPPPPPPP/RNBQKBNR").toList)
         (oneStepIdx ("white").toList) 1 = '.') ∧
    (mkMove 1 (twoStepIdx ("white").toList) ∈
        pawnMovesAt (parseBoard ("rnbqkbnr/pppppppp/8/8/8/8/PPPPPPPP/RNBQKBNR").toList)
          ("white").toList (startRank ("white").toList) 1 ↔
       (cellD (parseBoard ("rnbqkbnr/pppppppp/8/8/8/8/PPPPPPPP/RNBQKBNR").toList)
          (oneStepIdx ("white").toList) 1 = '.' ∧
        cellD (parseBoard ("rnbqkbnr/pppppppp/8/8/8/8/PPPPPPPP/RNBQKBNR").toList)
          (twoStepIdx ("white").toList) 1 = '.')) :=
  pawn_home_moves (parseBoard ("rnbqkbnr/pppppppp/8/8/8/8/PPPPPPPP/RNBQKBNR").toList)
    ("white").toList 1 (Or.inl rfl) (by decide)

/-! ### Claim C10 -/

/-- C10: every move the pawn generator produces comes from a pawn of the
given color and lands on that pawn's own file; no diagonal or en-passant
capture is ever generated. -/
theorem pawn_moves_same_file (board : List (List Char)) (color m : List Char)
    (hm : m ∈ analyze_pawn_moves board color) :
    ∃ ri fi r2, ri < 8 ∧ fi < 8 ∧ cellD board ri fi = pawnChar color ∧
      m = mkMove fi r2 := by
  unfold analyze_pawn_moves at hm
  rw [List.mem_flatMap] at hm
  obtain ⟨ri, hri, hm⟩ := hm
  rw [List.mem_flatMap] at hm
  obtain ⟨fi, hfi, hm⟩ := hm
  have hri8 : ri < 8 := List.mem_range.mp hri
  have hfi8 : fi < 8 := List.mem_range.mp hfi
  refine ⟨ri, fi, ?_⟩
  unfold pawnMovesAt at hm
  by_cases hp : cellD board ri fi = pawnChar color
  · rw [if_pos hp] at hm
    by_cases h1 : 0 ≤ (ri : Int) + pawnDir color ∧ (ri : Int) + pawnDir color < 8 ∧
        cellD board ((ri : Int) + pawnDir color).toNat fi = '.'
    · rw [if_pos h1] at hm
      by_cases h2 : ri = startRank color
      · rw [if_pos h2] at hm
        by_cases h3 : cellD board ((ri : Int) + 2 * pawnDir color).toNat fi = '.'
        · rw [if_pos h3] at hm
          rcases List.mem_cons.mp hm with rfl | hm2
          · exact ⟨_, hri8, hfi8, hp, rfl⟩
          · rcases List.mem_singleton.mp hm2 with rfl
            exact ⟨_, hri8, hfi8, hp, rfl⟩
        · rw [if_neg h3] at hm
          rcases List.mem_singleton.mp hm with rfl
          exact ⟨_, hri8, hfi8, hp, rfl⟩
      · rw [if_neg h2] at hm
        rcases List.mem_singleton.mp hm with rfl
        exact ⟨_, hri8, hfi8, hp, rfl⟩
    · rw [if_neg h1] at hm
      simp at hm
  · rw [if_neg hp] at hm
    simp at hm

/-- Instance of `pawn_moves_same_file` at the generated move a3 of the
starting position. -/
theorem pawn_moves_same_file_witness :
    ∃ ri fi r2, ri < 8 ∧ fi < 8 ∧
      cellD (parseBoard ("rnbqkbnr/pppppppp/8/8/8/8/PPPPPPPP/RNBQKBNR").toList) ri fi
          = pawnChar ("white").toList ∧
      ("a3").toList = mkMove fi r2 :=
  pawn_moves_same_file
    (parseBoard ("rnbqkbnr/pppppppp/8/8/8/8/PPPPPPPP/RNBQKBNR").toList)
    ("white").toList ("a3").toList (by decide)

/-! ### Lemmas on the bishop path walk -/

theorem isLower_not_isUpper (c : Char) (h : c.isLower = true) :
    c.isUpper = false := by
  simp only [Char.isLower, Char.isUpper, Bool.and_eq_true, decide_eq_true_eq,
    UInt32.le_def, UInt32.lt_def, BitVec.le_def, BitVec.lt_def,
    show (UInt32.toBitVec 65).toNat = 65 from rfl,
    show (UInt32.toBitVec 90).toNat = 90 from rfl,
    show (UInt32.toBitVec 97).toNat = 97 from rfl,
    show (UInt32.toBitVec 122).toNat = 122 from rfl] at h ⊢
  rw [Bool.and_eq_false_iff]
  right
  rw [decide_eq_false_iff_not]
  omega

theorem isUpper_not_isLower (c : Char) (h : c.isUpper = true) :
    c.isLower = false := by
  simp only [Char.isLower, Char.isUpper, Bool.and_eq_true, decide_eq_true_eq,
    UInt32.le_def, UInt32.lt_def, BitVec.le_def, BitVec.lt_def,
    show (UInt32.toBitVec 65).toNat = 65 from rfl,
    show (UInt32.toBitVec 90).toNat = 90 from rfl,
    show (UInt32.toBitVec 97).toNat = 97 from rfl,
    show (UInt32.toBitVec 122).toNat = 122 from rfl] at h ⊢
  rw [Bool.and_eq_false_iff]
  left
  rw [decide_eq_false_iff_not]
  omega

theorem isLower_ne_dot (c : Char) (h : c.isLower = true) : c ≠ '.' := by
  intro hc
  subst hc
  exact absurd h (by decide)

theorem isUpper_ne_dot (c : Char) (h : c.isUpper = true) : c ≠ '.' := by
  intro hc
  subst hc
  exact absurd h (by decide)

/-- When every square the walk visits is empty, the walk reports no
blocker. -/
theorem findBlocked_none (board : List (List Char)) (fstep rowstep : Int) :
    ∀ (steps : Nat) (cf crow : Int),
      (∀ j : Nat, j < steps →
        cellI board (crow + j * rowstep) (cf + j * fstep) = '.') →
      findBlocked board cf crow fstep rowstep steps = none := by
  intro steps
  induction steps with
  | zero => intro cf crow _; rfl
  | succ n ih =>
    intro cf crow h
    unfold findBlocked
    have h0 : cellI board crow cf = '.' := by
      have := h 0 (Nat.succ_pos n)
      simpa using this
    rw [if_neg (by simp [h0])]
    apply ih
    intro j hj
    have hjj := h (j + 1) (by omega)
    have e1 : crow + ((j + 1 : Nat) : Int) * rowstep
        = (crow + rowstep) + (j : Int) * rowstep := by push_cast; ring
    have e2 : cf + ((j + 1 : Nat) : Int) * fstep
        = (cf + fstep) + (j : Int) * fstep := by push_cast; ring
    rw [e1, e2] at hjj
    exact hjj

/-- When some square the walk visits is occupied, the walk reports a
blocker. -/
theorem findBlocked_some (board : List (List Char)) (fstep rowstep : Int) :
    ∀ (steps : Nat) (cf crow : Int),
      (∃ j : Nat, j < steps ∧
        cellI board (crow + j * rowstep) (cf + j * fstep) ≠ '.') →
      ∃ x, findBlocked board cf crow fstep rowstep steps = some x := by
  intro steps
  induction steps with
  | zero =>
    intro cf crow h
    obtain ⟨j, hj, _⟩ := h
    exact absurd hj (Nat.not_lt_zero j)
  | succ n ih =>
    intro cf crow h
    unfold findBlocked
    by_cases h0 : cellI board crow cf ≠ '.'
    · rw [if_pos h0]
      exact ⟨_, rfl⟩
    · rw [if_neg h0]
      obtain ⟨j, hj, hc⟩ := h
      cases j with
      | zero =>
        exfalso
        apply h0
        simpa using hc
      | succ j =>
        apply ih
        refine ⟨j, by omega, ?_⟩
        have e1 : crow + ((j + 1 : Nat) : Int) * rowstep
            = (crow + rowstep) + (j : Int) * rowstep := by push_cast; ring
        have e2 : cf + ((j + 1 : Nat) : Int) * fstep
            = (cf + fstep) + (j : Int) * fstep := by push_cast; ring
        rw [e1, e2] at hc
        exact hc

/-! ### Claim C3 -/

/-- C3: for a diagonal bishop request between on-board squares, the check
reports the move illegal whenever some square strictly between origin and
destination is occupied, and reports it legal whenever every
strictly-between square is empty and the destination is empty or holds an
opposing-case piece. -/
theorem bishop_path_blocking (board : List (List Char)) (ff fr tf tr : Nat)
    (color : List Char)
    (hff : ff < 8) (hfr : 1 ≤ fr ∧ fr ≤ 8) (htf : tf < 8) (htr : 1 ≤ tr ∧ tr ≤ 8)
    (hdiag : ((tf : Int) - ff).natAbs = ((tr : Int) - fr).natAbs)
    (hnz : ((tf : Int) - ff).natAbs ≠ 0) :
    ((∃ k : Nat, k < ((tf : Int) - ff).natAbs ∧ 1 ≤ k ∧
        betweenCell board ff fr tf tr k ≠ '.') →
      (can_bishop_move_core board ff fr tf tr color).1 = false) ∧
    ((∀ k : Nat, k < ((tf : Int) - ff).natAbs → 1 ≤ k →
        betweenCell board ff fr tf tr k = '.') →
      (cellI board (8 - (tr : Int)) tf = '.' ∨
        (color = ("white").toList ∧ (cellI board (8 - (tr : Int)) tf).isLower) ∨
        (color = ("black").toList ∧ (cellI board (8 - (tr : Int)) tf).isUpper)) →
      can_bishop_move_core board ff fr tf tr color
        = (true, ("Legal move").toList)) := by
  have hcond : ¬ (((tf : Int) - ff).natAbs ≠ ((tr : Int) - fr).natAbs ∨
      ((tf : Int) - ff).natAbs = 0) := fun h => h.elim (fun h1 => h1 hdiag) hnz
  constructor
  · intro hex
    unfold can_bishop_move_core
    rw [if_neg hcond]
    obtain ⟨k, hk, hk1, hcell⟩ := hex
    have hblk : ∃ x, findBlocked board ((ff : Int) + stepF ff tf)
        ((8 - (fr : Int)) + stepRow fr tr) (stepF ff tf) (stepRow fr tr)
        (((tf : Int) - ff).natAbs - 1) = some x := by
      apply findBlocked_some
      refine ⟨k - 1, by omega, ?_⟩
      have e1 : ((8 - (fr : Int)) + stepRow fr tr) + ((k - 1 : Nat) : Int) * stepRow fr tr
          = (8 - (fr : Int)) + (k : Int) * stepRow fr tr := by
        have hc : ((k - 1 : Nat) : Int) = (k : Int) - 1 := by omega
        rw [hc]; ring
      have e2 : ((ff : Int) + stepF ff tf) + ((k - 1 : Nat) : Int) * stepF ff tf
          = (ff : Int) + (k : Int) * stepF ff tf := by
        have hc : ((k - 1 : Nat) : Int) = (k : Int) - 1 := by omega
        rw [hc]; ring
      rw [e1, e2]
      exact hcell
    obtain ⟨x, hx⟩ := hblk
    rcases x with ⟨bf, brow⟩
    simp only [hx]
  · intro hall hdest
    unfold can_bishop_move_core
    rw [if_neg hcond]
    have hnb : findBlocked board ((ff : Int) + stepF ff tf)
        ((8 - (fr : Int)) + stepRow fr tr) (stepF ff tf) (stepRow fr tr)
        (((tf : Int) - ff).natAbs - 1) = none := by
      apply findBlocked_none
      intro j hj
      have hjj := hall (j + 1) (by omega) (by omega)
      have e1 : ((8 - (fr : Int)) + stepRow fr tr) + (j : Int) * stepRow fr tr
          = (8 - (fr : Int)) + ((j + 1 : Nat) : Int) * stepRow fr tr := by
        push_cast; ring
      have e2 : ((ff : Int) + stepF ff tf) + (j : Int) * stepF ff tf
          = (ff : Int) + ((j + 1 : Nat) : Int) * stepF ff tf := by
        push_cast; ring
      rw [e1, e2]
      exact hjj
    simp only [hnb]
    rcases hdest with hemp | ⟨hw, hl⟩ | ⟨hb, hu⟩
    · rw [if_neg (by simp [hemp])]
    · rw [if_pos (isLower_ne_dot _ hl),
        if_neg (fun hc => by
          rw [isLower_not_isUpper _ hl] at hc
          exact Bool.false_ne_true hc.2),
        if_neg (fun hc => absurd (hw.symm.trans hc.1) (by decide))]
    · rw [if_pos (isUpper_ne_dot _ hu),
        if_neg (fun hc => absurd (hb.symm.trans hc.1) (by decide)),
        if_neg (fun hc => by
          rw [isUpper_not_isLower _ hu] at hc
          exact Bool.false_ne_true hc.2)]

/-- Instance of `bishop_path_blocking`: after 1.e4 e5, the bishop request
f1→c4 (file 5 rank 1 to file 2 rank 4) is diagonal with a clear path
onto an empty destination. -/
theorem bishop_path_blocking_witness :
    ((∃ k : Nat, k < (((2 : Nat) : Int) - (5 : Nat)).natAbs ∧ 1 ≤ k ∧
        betweenCell
          (parseBoard ("rnbqkbnr/pppp1ppp/8/4p3/4P3/8/PPPP1PPP/RNBQKBNR").toList)
          5 1 2 4 k ≠ '.') →
      (can_bishop_move_core
          (parseBoard ("rnbqkbnr/pppp1ppp/8/4p3/4P3/8/PPPP1PPP/RNBQKBNR").toList)
          5 1 2 4 ("white").toList).1 = false) ∧
    ((∀ k : Nat, k < (((2 : Nat) : Int) - (5 : Nat)).natAbs → 1 ≤ k →
        betweenCell
          (parseBoard ("rnbqkbnr/pppp1ppp/8/4p3/4P3/8/PPPP1PPP/RNBQKBNR").toList)
          5 1 2 4 k = '.') →
      (cellI (parseBoard ("rnbqkbnr/pppp1ppp/8/4p3/4P3/8/PPPP1PPP/RNBQKBNR").toList)
          (8 - ((4 : Nat) : Int)) 2 = '.' ∨
        (("white").toList = ("white").toList ∧
          (cellI (parseBoard ("rnbqkbnr/pppp1ppp/8/4p3/4P3/8/PPPP1PPP/RNBQKBNR").toList)
            (8 - ((4 : Nat) : Int)) 2).isLower) ∨
        (("white").toList = ("black").toList ∧
          (cellI (parseBoard ("rnbqkbnr/pppp1ppp/8/4p3/4P3/8/PPPP1PPP/RNBQKBNR").toList)
            (8 - ((4 : Nat) : Int)) 2).isUpper)) →
      can_bishop_move_core
          (parseBoard ("rnbqkbnr/pppp1ppp/8/4p3/4P3/8/PPPP1PPP/RNBQKBNR").toList)
          5 1 2 4 ("white").toList = (true, ("Legal move").toList)) :=
  bishop_path_blocking
    (parseBoard ("rnbqkbnr/pppp1ppp/8/4p3/4P3/8/PPPP1PPP/RNBQKBNR").toList)
    5 1 2 4 ("white").toList (by decide) (by decide) (by decide) (by decide)
    (by decide) (by decide)

/-! ### Claim C7 -/

/-- C7 as stated is false: a bishop request whose destination holds an
own-colored piece is not always reported as occupied-by-own — when the
diagonal is blocked earlier, the path message wins.  Here c1→e3 has the
own pawn d2 in between and the own pawn e3 at the destination, and the
check reports the blocked path, not the occupied destination. -/
theorem bishop_dest_counterexample :
    can_bishop_move_core
        (parseBoard ("rnbqkbnr/pppppppp/8/8/8/4P3/PPPP1PPP/RNBQKBNR").toList)
        2 1 4 3 ("white").toList
      = (false, ("Path blocked at d2").toList) ∧
    (cellI (parseBoard ("rnbqkbnr/pppppppp/8/8/8/4P3/PPPP1PPP/RNBQKBNR").toList)
        (8 - ((3 : Nat) : Int)) 4).isUpper = true ∧
    ("Path blocked at d2").toList ≠ ("Destination occupied by own piece").toList := by
  refine ⟨by decide, by decide, by decide⟩

/-- C7 amended: for a diagonal bishop request between on-board squares
whose strictly-between squares are all empty, a destination holding an
own-case piece is reported `Destination occupied by own piece`, and a
destination holding an opposing-case piece is a legal capture, with no
separate capture flag in the request. -/
theorem bishop_dest_own_piece (board : List (List Char)) (ff fr tf tr : Nat)
    (color : List Char)
    (hff : ff < 8) (hfr : 1 ≤ fr ∧ fr ≤ 8) (htf : tf < 8) (htr : 1 ≤ tr ∧ tr ≤ 8)
    (hdiag : ((tf : Int) - ff).natAbs = ((tr : Int) - fr).natAbs)
    (hnz : ((tf : Int) - ff).natAbs ≠ 0)
    (hclear : ∀ k : Nat, k < ((tf : Int) - ff).natAbs → 1 ≤ k →
      betweenCell board ff fr tf tr k = '.') :
    (((color = ("white").toList ∧ (cellI board (8 - (tr : Int)) tf).isUpper) ∨
      (color = ("black").toList ∧ (cellI board (8 - (tr : Int)) tf).isLower)) →
      can_bishop_move_core board ff fr tf tr color
        = (false, ("Destination occupied by own piece").toList)) ∧
    (((color = ("white").toList ∧ (cellI board (8 - (tr : Int)) tf).isLower) ∨
      (color = ("black").toList ∧ (cellI board (8 - (tr : Int)) tf).isUpper)) →
      can_bishop_move_core board ff fr tf tr color
        = (true, ("Legal move").toList)) := by
  have hcond : ¬ (((tf : Int) - ff).natAbs ≠ ((tr : Int) - fr).natAbs ∨
      ((tf : Int) - ff).natAbs = 0) := fun h => h.elim (fun h1 => h1 hdiag) hnz
  have hnb : findBlocked board ((ff : Int) + stepF ff tf)
      ((8 - (fr : Int)) + stepRow fr tr) (stepF ff tf) (stepRow fr tr)
      (((tf : Int) - ff).natAbs - 1) = none := by
    apply findBlocked_none
    intro j hj
    have hjj := hclear (j + 1) (by omega) (by omega)
    have e1 : ((8 - (fr : Int)) + stepRow fr tr) + (j : Int) * stepRow fr tr
        = (8 - (fr : Int)) + ((j + 1 : Nat) : Int) * stepRow fr tr := by
      push_cast; ring
    have e2 : ((ff : Int) + stepF ff tf) + (j : Int) * stepF ff tf
        = (ff : Int) + ((j + 1 : Nat) : Int) * stepF ff tf := by
      push_cast; ring
    rw [e1, e2]
    exact hjj
  constructor
  · intro hown
    unfold can_bishop_move_core
    rw [if_neg hcond]
    simp only [hnb]
    rcases hown with ⟨hw, hu⟩ | ⟨hb, hl⟩
    · rw [if_pos (isUpper_ne_dot _ hu), if_pos ⟨hw, hu⟩]
    · rw [if_pos (isLower_ne_dot _ hl),
        if_neg (fun hc => absurd (hb.symm.trans hc.1) (by decide)),
        if_pos ⟨hb, hl⟩]
  · intro hcap
    unfold can_bishop_move_core
    rw [if_neg hcond]
    simp only [hnb]
    rcases hcap with ⟨hw, hl⟩ | ⟨hb, hu⟩
    · rw [if_pos (isLower_ne_dot _ hl),
        if_neg (fun hc => by
          rw [isLower_not_isUpper _ hl] at hc
          exact Bool.false_ne_true hc.2),
        if_neg (fun hc => absurd (hw.symm.trans hc.1) (by decide))]
    · rw [if_pos (isUpper_ne_dot _ hu),
        if_neg (fun hc => absurd (hb.symm.trans hc.1) (by decide)),
        if_neg (fun hc => by
          rw [isUpper_not_isLower _ hu] at hc
          exact Bool.false_ne_true hc.2)]

/-- Instance of `bishop_dest_own_piece`: from the starting position the
request f1→e2 (file 5 rank 1 to file 4 rank 2) is one diagonal step onto
the own pawn on e2. -/
theorem bishop_dest_own_piece_witness :
    (((("white").toList = ("white").toList ∧
        (cellI (parseBoard ("rnbqkbnr/pppppppp/8/8/8/8/PPPPPPPP/RNBQKBNR").toList)
          (8 - ((2 : Nat) : Int)) 4).isUpper) ∨
      (("white").toList = ("black").toList ∧
        (cellI (parseBoard ("rnbqkbnr/pppppppp/8/8/8/8/PPPPPPPP/RNBQKBNR").toList)
          (8 - ((2 : Nat) : Int)) 4).isLower)) →
      can_bishop_move_core
          (parseBoard ("rnbqkbnr/pppppppp/8/8/8/8/PPPPPPPP/RNBQKBNR").toList)
          5 1 4 2 ("white").toList
        = (false, ("Destination occupied by own piece").toList)) ∧
    (((("white").toList = ("white").toList ∧
        (cellI (parseBoard ("rnbqkbnr/pppppppp/8/8/8/8/PPPPPPPP/RNBQKBNR").toList)
          (8 - ((2 : Nat) : Int)) 4).isLower) ∨
      (("white").toList = ("black").toList ∧
        (cellI (parseBoard ("rnbqkbnr/pppppppp/8/8/8/8/PPPPPPPP/RNBQKBNR").toList)
          (8 - ((2 : Nat) : Int)) 4).isUpper)) →
      can_bishop_move_core
          (parseBoard ("rnbqkbnr/pppppppp/8/8/8/8/PPPPPPPP/RNBQKBNR").toList)
          5 1 4 2 ("white").toList
        = (true, ("Legal move").toList)) :=
  bishop_dest_own_piece
    (parseBoard ("rnbqkbnr/pppppppp/8/8/8/8/PPPPPPPP/RNBQKBNR").toList)
    5 1 4 2 ("white").toList (by decide) (by decide) (by decide) (by decide)
    (by decide) (by decide) (by decide)

end DailyChess
